import Mathlib

/-!
Shallow embedding of the segmented-media retrieval engine of
`src/offscreen.js` (media-stream-inspector).

Modelling conventions:
* byte buffers (`ArrayBuffer`, `Uint8Array`) are `List Nat`, each entry a byte value;
* strings are `List Char`; JS string helpers (`trim`, `split`, `startsWith`,
  `substr`) are translated directly;
* the network is an oracle `Nat → FetchResult` giving the outcome of the
  n-th `fetch` call for a fixed URL; `res.ok` means a status in 200..299;
* `await`/promise scheduling is modelled by explicit traces (number of fetch
  calls, the list of backoff delays) and, for the concurrent segment batch,
  by an arbitrary completion order (a list of segment indices).
-/

namespace MediaStreamInspector

/-- Constants from the top of `offscreen.js`. -/
def CONCURRENCY : Nat := 8

def MAX_RETRIES : Nat := 3

def RETRY_DELAY_MS : Nat := 1000

abbrev Bytes := List Nat

/-- Outcome of a single `fetch` call: an HTTP response with a status and a
body, or a thrown transport error (the `catch` branch in `fetchWithRetry`). -/
inductive FetchResult where
  | response (status : Nat) (body : Bytes)
  | netError
deriving DecidableEq

/-- `res.ok` in JS: status in the inclusive range 200..299. -/
def resOk (status : Nat) : Bool := 200 ≤ status && status ≤ 299

/-- Observable trace of `fetchWithRetry`: the returned value (`none` models
the JS `null`), how many `fetch` calls were made, and the list of backoff
delays (in ms, in chronological order) that were awaited. -/
structure RetryTrace where
  result : Option Bytes
  fetchCalls : Nat
  delays : List Nat
deriving DecidableEq

/-- A fetch outcome that sends `fetchWithRetry` around its retry loop:
a non-ok, non-404 response, or a thrown transport error before the final
attempt. -/
def retryable : FetchResult → Bool
  | .response s _ => !resOk s && s ≠ 404
  | .netError => true

/-- The loop body of `fetchWithRetry` (offscreen.js lines 117-129), starting
at iteration `attempt` of `for (let attempt = 0; attempt <= retries; attempt++)`.
An ok response returns its body; a 404 returns `null` with no retry; any other
response falls through to the `RETRY_DELAY_MS * (attempt + 1)` delay and the
next iteration; a thrown fetch returns `null` when `attempt === retries` and
otherwise also falls through to the delay. -/
def fetchLoop (oracle : Nat → FetchResult) (retries attempt : Nat) : RetryTrace :=
  if _h : attempt ≤ retries then
    match oracle attempt with
    | .response s b =>
      if resOk s then ⟨some b, 1, []⟩
      else if s = 404 then ⟨none, 1, []⟩
      else
        let rest := fetchLoop oracle retries (attempt + 1)
        ⟨rest.result, rest.fetchCalls + 1, RETRY_DELAY_MS * (attempt + 1) :: rest.delays⟩
    | .netError =>
      if attempt = retries then ⟨none, 1, []⟩
      else
        let rest := fetchLoop oracle retries (attempt + 1)
        ⟨rest.result, rest.fetchCalls + 1, RETRY_DELAY_MS * (attempt + 1) :: rest.delays⟩
  else ⟨none, 0, []⟩
termination_by retries + 1 - attempt
decreasing_by all_goals omega

/-- `fetchWithRetry(url)` with the default `retries = MAX_RETRIES`. -/
def fetchWithRetry (oracle : Nat → FetchResult) : RetryTrace :=
  fetchLoop oracle MAX_RETRIES 0

theorem fetchLoop_success (oracle : Nat → FetchResult) (s : Nat) (b : Bytes)
    (retries : Nat) :
    ∀ k attempt, attempt + k ≤ retries →
    (∀ j, attempt ≤ j → j < attempt + k → retryable (oracle j) = true) →
    oracle (attempt + k) = .response s b → resOk s = true →
    fetchLoop oracle retries attempt =
      ⟨some b, k + 1, (List.range' (attempt + 1) k).map (fun d => RETRY_DELAY_MS * d)⟩ := by
  intro k
  induction k with
  | zero =>
    intro attempt hle _ hor hok
    rw [fetchLoop]
    simp only [Nat.add_zero] at hle hor
    simp [hle, hor, hok]
  | succ k ih =>
    intro attempt hle hretry hor hok
    have h0 : attempt ≤ retries := by omega
    have hr0 : retryable (oracle attempt) = true := by
      apply hretry attempt (Nat.le_refl _); omega
    have hrec : fetchLoop oracle retries (attempt + 1) =
        ⟨some b, k + 1, (List.range' (attempt + 2) k).map (fun d => RETRY_DELAY_MS * d)⟩ := by
      apply ih (attempt + 1) (by omega)
      · intro j hj1 hj2; exact hretry j (by omega) (by omega)
      · have : attempt + 1 + k = attempt + (k + 1) := by omega
        rw [this]; exact hor
      · exact hok
    rw [fetchLoop]
    cases horacle : oracle attempt with
    | response s' b' =>
      have : (!resOk s' && s' ≠ 404) = true := by
        simpa [retryable, horacle] using hr0
      have hnok : resOk s' = false := by
        cases hx : resOk s' <;> simp [hx] at this ⊢
      have h404 : s' ≠ 404 := by
        cases hy : decide (s' = 404) <;> simp_all
      simp [h0, hnok, h404, hrec, List.range']
    | netError =>
      have hne : attempt ≠ retries := by omega
      simp [h0, hne, hrec, List.range']

theorem fetchLoop_allFail (oracle : Nat → FetchResult) (retries : Nat) :
    ∀ fuel attempt, retries + 1 - attempt = fuel →
    (∀ j, attempt ≤ j → j ≤ retries → retryable (oracle j) = true) →
    (fetchLoop oracle retries attempt).result = none ∧
    (fetchLoop oracle retries attempt).fetchCalls = retries + 1 - attempt := by
  intro fuel
  induction fuel with
  | zero =>
    intro attempt hfuel _
    have : ¬ attempt ≤ retries := by omega
    rw [fetchLoop]
    simp [this]
    omega
  | succ f ih =>
    intro attempt hfuel hretry
    have h0 : attempt ≤ retries := by omega
    have hr0 : retryable (oracle attempt) = true := hretry attempt (Nat.le_refl _) h0
    rw [fetchLoop]
    cases horacle : oracle attempt with
    | response s' b' =>
      have : (!resOk s' && s' ≠ 404) = true := by
        simpa [retryable, horacle] using hr0
      have hnok : resOk s' = false := by
        cases hx : resOk s' <;> simp [hx] at this ⊢
      have h404 : s' ≠ 404 := by
        cases hy : decide (s' = 404) <;> simp_all
      have hrec := ih (attempt + 1) (by omega)
        (fun j hj1 hj2 => hretry j (by omega) hj2)
      simp [h0, hnok, h404, hrec.1, hrec.2]
      try omega
    | netError =>
      by_cases heq : attempt = retries
      · simp [h0, heq]
        try omega
      · have hrec := ih (attempt + 1) (by omega)
          (fun j hj1 hj2 => hretry j (by omega) hj2)
        simp [h0, heq, hrec.1, hrec.2]
        try omega

/-- Claim C4: for every URL, a non-success non-404 response or transport
failure retries after a delay of `RETRY_DELAY_MS * attemptNumber` (linearly
increasing, 1-indexed), with up to `MAX_RETRIES = 3` additional attempts after
the first; a success on attempt `k + 1` (after `k` retryable failures) yields
the body after exactly `k + 1` fetch calls and exactly the backoff delays
`RETRY_DELAY_MS * 1, …, RETRY_DELAY_MS * k`; a persistently failing URL
returns absent after exactly 4 fetch attempts. -/
theorem retry_policy (oracle : Nat → FetchResult) :
    (∀ k s b, k ≤ MAX_RETRIES →
      (∀ j, j < k → retryable (oracle j) = true) →
      oracle k = .response s b → resOk s = true →
      fetchWithRetry oracle =
        ⟨some b, k + 1, (List.range' 1 k).map (fun d => RETRY_DELAY_MS * d)⟩) ∧
    ((∀ j, j ≤ MAX_RETRIES → retryable (oracle j) = true) →
      (fetchWithRetry oracle).result = none ∧
      (fetchWithRetry oracle).fetchCalls = 4) := by
  constructor
  · intro k s b hk hretry hor hok
    have := fetchLoop_success oracle s b MAX_RETRIES k 0 (by omega)
      (fun j hj1 hj2 => hretry j (by omega)) (by simpa using hor) hok
    simpa [fetchWithRetry] using this
  · intro hall
    have := fetchLoop_allFail oracle MAX_RETRIES (MAX_RETRIES + 1) 0 (by omega)
      (fun j hj1 hj2 => hall j hj2)
    simpa [fetchWithRetry, MAX_RETRIES] using this

/-- Oracle for the retry witness: attempts 0 and 1 return status 500,
attempt 2 returns status 200 with body `[7]`. -/
def retryWitnessOracle : Nat → FetchResult :=
  fun j => if j < 2 then .response 500 [] else .response 200 [7]

/-- Witness for C4: statuses 500, 500, 200 succeed after exactly 3 fetch
attempts and exactly 2 backoff delays of 1000 ms and 2000 ms; an always-500
endpoint returns absent after exactly 4 fetch attempts. -/
theorem retry_policy_witness :
    fetchWithRetry retryWitnessOracle = ⟨some [7], 3, [1000, 2000]⟩ ∧
    ((fetchWithRetry (fun _ => .response 500 [])).result = none ∧
     (fetchWithRetry (fun _ => .response 500 [])).fetchCalls = 4) := by
  constructor
  · have := (retry_policy retryWitnessOracle).1 2 200 [7] (by decide)
      (by decide) (by decide) (by decide)
    simpa [RETRY_DELAY_MS, List.range'] using this
  · exact (retry_policy (fun _ => .response 500 [])).2 (fun j _ => by decide)

/-- Claim C5: an HTTP 404 response on the first attempt makes the segment
fetcher return absent immediately: exactly 1 fetch attempt, no retry, no
backoff delay. -/
theorem http404_no_retry (oracle : Nat → FetchResult) (b : Bytes)
    (h : oracle 0 = .response 404 b) :
    fetchWithRetry oracle = ⟨none, 1, []⟩ := by
  rw [fetchWithRetry, fetchLoop]
  simp [MAX_RETRIES, h, resOk]

/-- Witness for C5: a concrete oracle whose first response is a 404. -/
theorem http404_no_retry_witness :
    fetchWithRetry (fun _ => .response 404 [9]) = ⟨none, 1, []⟩ :=
  http404_no_retry (fun _ => .response 404 [9]) [9] rfl

/-! ### IV derivation (`parseHexIV`, `sequenceIV`, offscreen.js lines 36-51) -/

/-- JS whitespace skipped by `parseInt` (ASCII whitespace plus the common
Unicode cases: no-break space, BOM, line/paragraph separators). -/
def isJsWS (c : Char) : Bool :=
  c = ' ' || c = '\t' || c = '\n' || c = '\r' || c = '\x0b' || c = '\x0c' ||
  c = '\u00A0' || c = '\uFEFF' || c = '\u2028' || c = '\u2029'

/-- Value of a hexadecimal digit, `none` for a non-digit. -/
def hexVal (c : Char) : Option Nat :=
  if '0' ≤ c ∧ c ≤ '9' then some (c.toNat - 48)
  else if 'a' ≤ c ∧ c ≤ 'f' then some (c.toNat - 97 + 10)
  else if 'A' ≤ c ∧ c ≤ 'F' then some (c.toNat - 65 + 10)
  else none

def leadHexNumAux : List Char → Nat → Nat
  | [], acc => acc
  | c :: cs, acc =>
    match hexVal c with
    | some d => leadHexNumAux cs (acc * 16 + d)
    | none => acc

/-- Value of the longest leading run of hex digits; `none` when the string
has no leading hex digit (`parseInt` returns `NaN` in that case). -/
def leadHexNum : List Char → Option Nat
  | [] => none
  | c :: cs =>
    match hexVal c with
    | some d => some (leadHexNumAux cs d)
    | none => none

/-- JS `parseInt(s, 16)`: skip whitespace, optional sign, optional `0x`/`0X`,
then the longest run of hex digits; `none` models `NaN`. -/
def jsParseIntHex (s : List Char) : Option Int :=
  let s1 := s.dropWhile isJsWS
  let signed : Bool × List Char :=
    match s1 with
    | '-' :: rest => (true, rest)
    | '+' :: rest => (false, rest)
    | _ => (false, s1)
  let s3 : List Char :=
    match signed.2 with
    | '0' :: 'x' :: rest => rest
    | '0' :: 'X' :: rest => rest
    | _ => signed.2
  match leadHexNum s3 with
  | none => none
  | some v => some (if signed.1 then -(v : Int) else (v : Int))

/-- `ivString.replace(/^0x/i, '')`: strip one leading `0x` / `0X`. -/
def strip0x : List Char → List Char
  | '0' :: 'x' :: rest => rest
  | '0' :: 'X' :: rest => rest
  | s => s

/-- `parseHexIV` (offscreen.js lines 36-44): 16 bytes, byte `i` is
`parseInt(hex.substr(i * 2, 2), 16) || 0` stored into a `Uint8Array`
(assignment takes the value modulo 256, non-negative). -/
def parseHexIV (ivString : List Char) : List Nat :=
  let hex := strip0x ivString
  (List.range 16).map (fun i =>
    match jsParseIntHex ((hex.drop (i * 2)).take 2) with
    | none => 0
    | some v => (v % (256 : Int)).toNat)

/-- `sequenceIV` (offscreen.js lines 46-51): a 16-byte zero buffer whose last
4 bytes hold `DataView.setUint32(12, n)` — the big-endian bytes of
`n % 2^32` (`ToUint32`). The numerals are `2^24`, `2^16`, `2^8`, `2^32`. -/
def sequenceIV (sequenceNumber : Nat) : List Nat :=
  let m := sequenceNumber % 4294967296
  List.replicate 12 0 ++
    [m / 16777216 % 256, m / 65536 % 256, m / 256 % 256, m % 256]

/-- IV used for segment `segIndex` in `executeHlsDownload` (line 207):
`globalIV || sequenceIV(parsed.mediaSequence + segIndex)`, where `globalIV`
is `parseHexIV(parsed.encryption.iv)` when the manifest carries an explicit
IV and `null` otherwise (a `Uint8Array` is always truthy). -/
def segmentIV (ivHex : Option (List Char)) (mediaSequence segIndex : Nat) : List Nat :=
  match ivHex with
  | some s => parseHexIV s
  | none => sequenceIV (mediaSequence + segIndex)

/-- Claim C2: with an explicit `ivHex` the parsed 16-byte IV is reused for
every segment index; otherwise segment `i` gets a 16-byte IV whose first 12
bytes are zero and whose last 4 bytes are the big-endian 32-bit value
`mediaSequence + i`. -/
theorem iv_resolution (ivHex : Option (List Char)) (ms i : Nat) :
    (∀ s, ivHex = some s →
      (∀ j : Nat, segmentIV ivHex ms j = parseHexIV s) ∧
      (parseHexIV s).length = 16) ∧
    (ivHex = none →
      (segmentIV ivHex ms i).length = 16 ∧
      (segmentIV ivHex ms i).take 12 = List.replicate 12 0 ∧
      ((segmentIV ivHex ms i).drop 12).foldl (fun a b => a * 256 + b) 0 =
        (ms + i) % 4294967296) := by
  constructor
  · rintro s rfl
    exact ⟨fun j => rfl, by simp [parseHexIV]⟩
  · rintro rfl
    have hm : (ms + i) % 4294967296 < 4294967296 := Nat.mod_lt _ (by norm_num)
    refine ⟨by simp [segmentIV, sequenceIV], ?_, ?_⟩
    · simp [segmentIV, sequenceIV, List.take_append_eq_append_take]
    · simp only [segmentIV, sequenceIV]
      rw [List.drop_append_of_le_length (by simp)]
      simp only [List.drop_replicate, List.foldl]
      simp only [Nat.sub_self, List.drop_zero] at *
      omega

/-- Witness for C2: `mediaSequence = 5`, `index = 3`, no explicit IV — the
derived IV has 16 bytes, 12 leading zero bytes, and its trailing 4 bytes
decode (big-endian) to 8; with an explicit IV, every index reuses one IV. -/
theorem iv_resolution_witness :
    ((segmentIV none 5 3).length = 16 ∧
     (segmentIV none 5 3).take 12 = List.replicate 12 0 ∧
     ((segmentIV none 5 3).drop 12).foldl (fun a b => a * 256 + b) 0 = 8) ∧
    segmentIV (some ['0', '1']) 5 0 = segmentIV (some ['0', '1']) 5 9 := by
  constructor
  · have h := (iv_resolution none 5 3).2 rfl
    norm_num at h
    exact h
  · have h := ((iv_resolution (some ['0', '1']) 5 0).1 ['0', '1'] rfl).1
    rw [h 0, h 9]

/-- Claim C10: `parseHexIV` is total — for every input string it returns a
16-byte buffer; every chunk `hex.substr(2i, 2)` that `parseInt(_, 16)`
cannot parse (NaN) yields byte 0, and every produced entry is a byte. -/
theorem parseHexIV_total (s : List Char) :
    (parseHexIV s).length = 16 ∧
    (∀ i, i < 16 →
      jsParseIntHex (((strip0x s).drop (i * 2)).take 2) = none →
      (parseHexIV s).get? i = some 0) ∧
    (∀ b ∈ parseHexIV s, b < 256) := by
  refine ⟨by simp [parseHexIV], ?_, ?_⟩
  · intro i hi hnone
    simp only [parseHexIV, List.get?_eq_getElem?, List.getElem?_map,
      List.getElem?_range hi, Option.map_some]
    simp [hnone]
  · intro b hb
    simp only [parseHexIV, List.mem_map, List.mem_range] at hb
    obtain ⟨i, _, hbi⟩ := hb
    cases hx : jsParseIntHex (((strip0x s).drop (i * 2)).take 2) with
    | none =>
      rw [hx] at hbi
      simp at hbi
      omega
    | some v =>
      rw [hx] at hbi
      simp only [] at hbi
      have h1 : 0 ≤ v % (256 : Int) := Int.emod_nonneg _ (by norm_num)
      have h2 : v % (256 : Int) < 256 := Int.emod_lt_of_pos _ (by norm_num)
      omega

/-- Witness for C10: the string `ZZ42` has an unparseable first chunk `ZZ`,
so byte 0 is 0; the buffer still has 16 bytes. -/
theorem parseHexIV_total_witness :
    (parseHexIV ['Z', 'Z', '4', '2']).length = 16 ∧
    (parseHexIV ['Z', 'Z', '4', '2']).get? 0 = some 0 :=
  ⟨(parseHexIV_total ['Z', 'Z', '4', '2']).1,
   (parseHexIV_total ['Z', 'Z', '4', '2']).2.1 0 (by decide) (by decide)⟩

/-! ### Variant selection (`executeHlsDownload`, offscreen.js lines 153-163) -/

/-- One entry of `result.variants` built by the manifest parser. -/
structure Variant where
  bandwidth : Nat
  resolution : List Char
  url : List Char
deriving DecidableEq

/-- Insert `v` into a list all of whose elements came later in manifest order:
`v` goes in front of the first element with strictly smaller bandwidth. -/
def insertDesc (v : Variant) : List Variant → List Variant
  | [] => [v]
  | w :: ws => if w.bandwidth > v.bandwidth then w :: insertDesc v ws else v :: w :: ws

/-- `variants.sort((a, b) => b.bandwidth - a.bandwidth)`: JS `Array.prototype.sort`
is stable with a consistent comparator, so its result is the unique stable
descending-by-bandwidth permutation, realised here as a stable insertion sort. -/
def sortByBandwidthDesc (l : List Variant) : List Variant :=
  l.foldr insertDesc []

/-- `parsed.variants[0]` after the sort: the selected variant. -/
def selectVariant (l : List Variant) : Option Variant :=
  (sortByBandwidthDesc l).head?

/-- The earliest element of maximal bandwidth (later elements win only when
strictly larger). -/
def firstMaxByBandwidth : List Variant → Option Variant
  | [] => none
  | v :: vs =>
    match firstMaxByBandwidth vs with
    | none => some v
    | some w => if w.bandwidth > v.bandwidth then some w else some v

theorem head?_insertDesc (v : Variant) (l : List Variant) :
    (insertDesc v l).head? =
      some (match l.head? with
            | none => v
            | some w => if w.bandwidth > v.bandwidth then w else v) := by
  cases l with
  | nil => rfl
  | cons w ws =>
    by_cases h : w.bandwidth > v.bandwidth <;> simp [insertDesc, h]

theorem selectVariant_eq_firstMax (l : List Variant) :
    selectVariant l = firstMaxByBandwidth l := by
  induction l with
  | nil => rfl
  | cons v vs ih =>
    rw [selectVariant, sortByBandwidthDesc, List.foldr_cons, head?_insertDesc]
    rw [firstMaxByBandwidth]
    have hh : (sortByBandwidthDesc vs).head? = firstMaxByBandwidth vs := ih
    rw [sortByBandwidthDesc] at hh
    rw [hh]
    cases firstMaxByBandwidth vs with
    | none => rfl
    | some w => by_cases hb : w.bandwidth > v.bandwidth <;> simp [hb]

theorem firstMax_eq_none (l : List Variant) :
    firstMaxByBandwidth l = none ↔ l = [] := by
  cases l with
  | nil => simp [firstMaxByBandwidth]
  | cons y ys =>
    rw [firstMaxByBandwidth]
    cases hys : firstMaxByBandwidth ys with
    | none => simp
    | some w => by_cases hb : w.bandwidth > y.bandwidth <;> simp [hb]

theorem firstMax_spec (l : List Variant) (v : Variant)
    (h : firstMaxByBandwidth l = some v) :
    (∀ w ∈ l, w.bandwidth ≤ v.bandwidth) ∧
    ∃ pre suf, l = pre ++ v :: suf ∧ ∀ w ∈ pre, w.bandwidth < v.bandwidth := by
  induction l generalizing v with
  | nil => simp [firstMaxByBandwidth] at h
  | cons x xs ih =>
    rw [firstMaxByBandwidth] at h
    cases hx : firstMaxByBandwidth xs with
    | none =>
      rw [hx] at h
      have hxs : xs = [] := (firstMax_eq_none xs).mp hx
      subst hxs
      obtain rfl : x = v := by simpa using h
      exact ⟨by simp, [], [], rfl, by simp⟩
    | some w =>
      rw [hx] at h
      have h' : (if w.bandwidth > x.bandwidth then some w else some x) = some v := h
      obtain ⟨hmax, pre, suf, hsplit, hpre⟩ := ih w hx
      by_cases hb : w.bandwidth > x.bandwidth
      · rw [if_pos hb] at h'
        obtain rfl : w = v := by injection h'
        refine ⟨?_, x :: pre, suf, by rw [hsplit]; simp, ?_⟩
        · intro u hu
          rcases List.mem_cons.mp hu with rfl | hu2
          · omega
          · exact hmax u hu2
        · intro u hu
          rcases List.mem_cons.mp hu with rfl | hu2
          · omega
          · exact hpre u hu2
      · rw [if_neg hb] at h'
        obtain rfl : x = v := by injection h'
        refine ⟨?_, [], xs, rfl, by simp⟩
        intro u hu
        rcases List.mem_cons.mp hu with rfl | hu2
        · omega
        · have := hmax u hu2
          omega

/-- Claim C3: the variant selector is the head of the stable
descending-by-bandwidth sort; for every non-empty variants list it returns
the earliest variant of maximal bandwidth (ties preserve manifest order),
and bandwidth alone decides the selection. -/
theorem variant_selection (l : List Variant) :
    selectVariant l = firstMaxByBandwidth l ∧
    (l ≠ [] → ∃ v, selectVariant l = some v) ∧
    (∀ v, selectVariant l = some v →
      (∀ w ∈ l, w.bandwidth ≤ v.bandwidth) ∧
      ∃ pre suf, l = pre ++ v :: suf ∧ ∀ w ∈ pre, w.bandwidth < v.bandwidth) := by
  refine ⟨selectVariant_eq_firstMax l, ?_, ?_⟩
  · intro hne
    cases l with
    | nil => exact absurd rfl hne
    | cons x xs =>
      rw [selectVariant_eq_firstMax, firstMaxByBandwidth]
      cases firstMaxByBandwidth xs with
      | none => exact ⟨x, rfl⟩
      | some w =>
        by_cases hb : w.bandwidth > x.bandwidth
        · exact ⟨w, by simp [hb]⟩
        · exact ⟨x, by simp [hb]⟩
  · intro v hv
    rw [selectVariant_eq_firstMax] at hv
    exact firstMax_spec l v hv

/-- The spec example: variants with bandwidths 500000, 1200000, 800000. -/
def exampleVariants : List Variant :=
  [⟨500000, ['a'], ['u', '1']⟩, ⟨1200000, ['b'], ['u', '2']⟩, ⟨800000, ['c'], ['u', '3']⟩]

/-- Witness for C3: on bandwidths [500000, 1200000, 800000] the selector
returns the 1200000 entry, which dominates every entry of the list. -/
theorem variant_selection_witness :
    selectVariant exampleVariants = some ⟨1200000, ['b'], ['u', '2']⟩ ∧
    ∀ w ∈ exampleVariants, w.bandwidth ≤ 1200000 := by
  have h1 : selectVariant exampleVariants = firstMaxByBandwidth exampleVariants :=
    (variant_selection exampleVariants).1
  have h2 : firstMaxByBandwidth exampleVariants = some ⟨1200000, ['b'], ['u', '2']⟩ := by
    decide
  refine ⟨h1.trans h2, ?_⟩
  have h3 := ((variant_selection exampleVariants).2.2 ⟨1200000, ['b'], ['u', '2']⟩
    (h1.trans h2)).1
  simpa using h3

/-! ### Segment processing, batch download and assembly (offscreen.js 186-250) -/

/-- One segment task of the batch loop (lines 195-217). `data = none` models
a failed `fetchWithRetry` (the slot stays empty and `failedCount` grows).
With an imported key (`hasKey`), the segment is decrypted with the IV
resolved by `segmentIV`; `decrypt d iv = none` models a rejected
`crypto.subtle.decrypt` promise, in which case the raw ciphertext `d` is
written into the slot instead. -/
def processSegment (decrypt : Bytes → List Nat → Option Bytes) (hasKey : Bool)
    (ivHex : Option (List Char)) (mediaSequence segIndex : Nat)
    (data : Option Bytes) : Option Bytes :=
  match data with
  | none => none
  | some d =>
    if hasKey then
      match decrypt d (segmentIV ivHex mediaSequence segIndex) with
      | some plain => some plain
      | none => some d
    else some d

/-- The two fatal assembly errors thrown in lines 237-238 and 250. -/
inductive AssembleError where
  | allSegmentsFailed
  | emptyAssembly
deriving DecidableEq

/-- Lines 234-250 with the locals `validBuffers` and `blob` inlined:
filter the non-null buffers, throw `All segments failed to download` when
none is present, concatenate into a Blob whose size is the total byte
length, and throw `Assembled file is empty` when that size is 0. -/
def assemble (buffers : List (Option Bytes)) : Except AssembleError Bytes :=
  if (buffers.filterMap id).length = 0 then .error .allSegmentsFailed
  else if (buffers.filterMap id).flatten.length = 0 then .error .emptyAssembly
  else .ok (buffers.filterMap id).flatten

/-- Terminal state of the job: the `catch` in `executeHlsDownload` turns a
thrown assembly error into the failed terminal state. -/
inductive JobOutcome where
  | complete (artifact : Bytes)
  | failed (err : AssembleError)
deriving DecidableEq

def assembleStage (buffers : List (Option Bytes)) : JobOutcome :=
  match assemble buffers with
  | .ok artifact => .complete artifact
  | .error e => .failed e

/-- The segment download loop (lines 193-232) when every fetch succeeds and
no decryption key is in play: each task writes its bytes into its own fixed
slot `buffers[segIndex]`. `order` is the completion order of the tasks — an
arbitrary interleaving of the indices 0..n-1 (the batch barrier bounds
concurrency, but each write still lands in its own slot). -/
def runDownloads (segData : Nat → Bytes) (n : Nat) (order : List Nat) :
    List (Option Bytes) :=
  order.foldl (fun buffers i => buffers.set i (some (segData i))) (List.replicate n none)

theorem foldl_set_getElem? (f : Nat → Bytes) (order : List Nat)
    (init : List (Option Bytes)) (j : Nat) :
    (order.foldl (fun buffers i => buffers.set i (some (f i))) init)[j]? =
      if j ∈ order ∧ j < init.length then some (some (f j)) else init[j]? := by
  induction order generalizing init with
  | nil => simp
  | cons i rest ih =>
    rw [List.foldl_cons, ih, List.length_set]
    by_cases hmem : j ∈ rest ∧ j < init.length
    · rw [if_pos hmem, if_pos ⟨List.mem_cons_of_mem i hmem.1, hmem.2⟩]
    · rw [if_neg hmem, List.getElem?_set]
      by_cases hij : i = j
      · subst hij
        by_cases hlen : i < init.length
        · rw [if_pos rfl, if_pos hlen, if_pos ⟨List.mem_cons_self i rest, hlen⟩]
        · rw [if_pos rfl, if_neg hlen, if_neg (fun hc => hlen hc.2)]
          exact (List.getElem?_eq_none (by omega)).symm
      · rw [if_neg hij]
        have hnc : ¬(j ∈ i :: rest ∧ j < init.length) := by
          intro hc
          rcases List.mem_cons.mp hc.1 with rfl | hr
          · exact hij rfl
          · exact hmem ⟨hr, hc.2⟩
        rw [if_neg hnc]

theorem runDownloads_eq (segData : Nat → Bytes) (n : Nat) (order : List Nat)
    (horder : ∀ j, j ∈ order ↔ j < n) :
    runDownloads segData n order = (List.range n).map (fun i => some (segData i)) := by
  apply List.ext_getElem?
  intro j
  rw [runDownloads, foldl_set_getElem? segData order (List.replicate n none) j,
    List.length_replicate]
  by_cases hj : j < n
  · rw [if_pos ⟨(horder j).mpr hj, hj⟩]
    rw [List.getElem?_map, List.getElem?_range hj]
    rfl
  · have h1 : ¬(j ∈ order ∧ j < n) := fun hc => hj hc.2
    rw [if_neg h1]
    have h2 : (List.replicate n (none : Option Bytes))[j]? = none :=
      List.getElem?_eq_none (by simp; omega)
    have h3 : ((List.range n).map (fun i => some (segData i)))[j]? = none :=
      List.getElem?_eq_none (by simp; omega)
    rw [h2, h3]

theorem flatten_extract : ∀ (L : List Bytes) (i : Nat) (h : i < L.length),
    ((L.flatten).drop (((L.take i).map List.length).sum)).take (L[i].length) = L[i] := by
  intro L
  induction L with
  | nil => intro i h; simp at h
  | cons x xs ih =>
    intro i h
    cases i with
    | zero =>
      simp only [List.take_zero, List.map_nil, List.sum_nil, List.drop_zero,
        List.flatten_cons, List.getElem_cons_zero]
      exact List.take_left x xs.flatten
    | succ i =>
      have h' : i < xs.length := by simpa using h
      simp only [List.take_succ_cons, List.map_cons, List.sum_cons,
        List.flatten_cons, List.getElem_cons_succ]
      rw [List.drop_append]
      exact ih i h'

/-- Claim C1: for a manifest with `n` unencrypted segments whose fetches all
succeed, the assembled artifact exists, its byte length is the sum of the
`n` segment byte lengths, and segment `i`'s bytes occupy the artifact range
starting at the sum of the lengths of segments `0..i-1` — ascending
segment-index order, for every fetch completion order. -/
theorem ordered_assembly (segData : Nat → Bytes) (n : Nat) (order : List Nat)
    (hperm : order.Perm (List.range n))
    (hsize : 0 < ((List.range n).map (fun i => (segData i).length)).sum) :
    ∃ artifact,
      assemble (runDownloads segData n order) = .ok artifact ∧
      artifact.length = ((List.range n).map (fun i => (segData i).length)).sum ∧
      ∀ i, i < n →
        (artifact.drop (((List.range i).map (fun j => (segData j).length)).sum)).take
            (segData i).length = segData i := by
  have horder : ∀ j, j ∈ order ↔ j < n := by
    intro j
    rw [hperm.mem_iff, List.mem_range]
  have hrun := runDownloads_eq segData n order horder
  have hvalid : ((List.range n).map (fun i => some (segData i))).filterMap id =
      (List.range n).map segData := by
    rw [List.filterMap_map]
    have : (id ∘ fun i => some (segData i)) = (some ∘ segData) := rfl
    rw [this, List.filterMap_eq_map]
  have hlen : ((List.range n).map segData).flatten.length =
      ((List.range n).map (fun i => (segData i).length)).sum := by
    rw [List.length_flatten, List.map_map]
    rfl
  have hne : ((List.range n).map segData).length ≠ 0 := by
    intro hc
    simp only [List.length_map, List.length_range] at hc
    subst hc
    simp at hsize
  refine ⟨((List.range n).map segData).flatten, ?_, ?_, ?_⟩
  · rw [hrun]
    simp only [assemble, hvalid]
    rw [if_neg hne, if_neg (by rw [hlen]; omega)]
  · exact hlen
  · intro i hi
    have hiL : i < ((List.range n).map segData).length := by simpa using hi
    have hoff : (((((List.range n).map segData).take i)).map List.length).sum =
        ((List.range i).map (fun j => (segData j).length)).sum := by
      rw [← List.map_take, List.take_range, Nat.min_eq_left (Nat.le_of_lt hi),
        List.map_map]
      rfl
    have hget : ((List.range n).map segData)[i] = segData i := by
      rw [List.getElem_map, List.getElem_range]
    have := flatten_extract ((List.range n).map segData) i hiL
    rw [hoff, hget] at this
    exact this

/-- Data for the C1 witness: segment 0 is `[10]`, segment 1 is `[20, 21]`,
all later indices empty. -/
def c1SegData : Nat → Bytes :=
  fun i => if i = 0 then [10] else if i = 1 then [20, 21] else []

/-- Witness for C1: two segments completing out of order (`order = [1, 0]`)
still assemble to a 3-byte artifact with segment 0's bytes first. -/
theorem ordered_assembly_witness :
    ∃ artifact,
      assemble (runDownloads c1SegData 2 [1, 0]) = .ok artifact ∧
      artifact.length = ((List.range 2).map (fun i => (c1SegData i).length)).sum ∧
      ∀ i, i < 2 →
        (artifact.drop (((List.range i).map (fun j => (c1SegData j).length)).sum)).take
            (c1SegData i).length = c1SegData i :=
  ordered_assembly c1SegData 2 [1, 0] (by decide) (by decide)

/-- Claim C6: an encrypted segment whose fetch succeeded but whose
AES-128-CBC decryption fails is neither dropped nor fatal: the original
ciphertext bytes are substituted into the segment's result slot. -/
theorem decrypt_fallback (decrypt : Bytes → List Nat → Option Bytes)
    (ivHex : Option (List Char)) (ms idx : Nat) (d : Bytes)
    (hfail : decrypt d (segmentIV ivHex ms idx) = none) :
    processSegment decrypt true ivHex ms idx (some d) = some d ∧
    processSegment decrypt true ivHex ms idx (some d) ≠ none := by
  refine ⟨?_, ?_⟩ <;> simp [processSegment, hfail]

/-- Witness for C6: a decryptor that always fails leaves the fetched
ciphertext `[1, 2, 3]` in place. -/
theorem decrypt_fallback_witness :
    processSegment (fun _ _ => none) true none 0 0 (some [1, 2, 3]) = some [1, 2, 3] :=
  (decrypt_fallback (fun _ _ => none) none 0 0 [1, 2, 3] rfl).1

/-- Claim C7: the assembler fails with `AllSegmentsFailedError` when zero
result entries are present, and with `EmptyAssemblyError` when entries are
present but the concatenated size is zero; either error drives the job to
its failed terminal state. -/
theorem fatal_assembly_errors (buffers : List (Option Bytes)) :
    ((buffers.filterMap id).length = 0 →
      assemble buffers = .error .allSegmentsFailed ∧
      assembleStage buffers = .failed .allSegmentsFailed) ∧
    ((buffers.filterMap id).length ≠ 0 →
      (buffers.filterMap id).flatten.length = 0 →
      assemble buffers = .error .emptyAssembly ∧
      assembleStage buffers = .failed .emptyAssembly) := by
  constructor
  · intro h
    constructor <;> simp [assemble, assembleStage, h]
  · intro h1 h2
    constructor <;> simp [assemble, assembleStage, h1, h2]

/-- Witness for C7: all-absent results fail with `AllSegmentsFailedError`;
one present but empty segment fails with `EmptyAssemblyError`. -/
theorem fatal_assembly_errors_witness :
    (assemble [none, none] = .error .allSegmentsFailed ∧
     assembleStage [none, none] = .failed .allSegmentsFailed) ∧
    (assemble [some [], none] = .error .emptyAssembly ∧
     assembleStage [some [], none] = .failed .emptyAssembly) :=
  ⟨(fatal_assembly_errors [none, none]).1 (by decide),
   (fatal_assembly_errors [some [], none]).2 (by decide) (by decide)⟩

/-! ### Manifest parsing (`parseM3u8`, offscreen.js lines 54-114)

The regex literals of the source are translated into explicit left-to-right
scanners with the same backtracking behaviour: the engine tries each start
position in turn, so a failed tail (missing digits, missing closing quote)
resumes the scan one character later. `new URL(line, baseUrl).href` is a
platform primitive; it is abstracted as a `resolveUrl` parameter (the base
URL is fixed for one `parseM3u8` call). -/

/-- ASCII lowering, enough for the `/i` regex flags whose patterns are
ASCII-only. -/
def toLowerAscii (c : Char) : Char :=
  if 'A' ≤ c ∧ c ≤ 'Z' then Char.ofNat (c.toNat + 32) else c

/-- `String.prototype.startsWith` (case-sensitive); argument order:
subject, pattern. -/
def startsW : List Char → List Char → Bool
  | _, [] => true
  | [], _ :: _ => false
  | c :: cs, p :: ps => c = p && startsW cs ps

/-- Case-insensitive ASCII pattern match at the head of the subject. -/
def startsWCI : List Char → List Char → Bool
  | _, [] => true
  | [], _ :: _ => false
  | c :: cs, p :: ps => toLowerAscii c = toLowerAscii p && startsWCI cs ps

/-- Decimal value of a digit run (the `parseInt` of a `(\d+)` capture). -/
def digitsToNat (ds : List Char) : Nat :=
  ds.foldl (fun a c => a * 10 + (c.toNat - 48)) 0

/-- `line.match(/PAT(\d+)/i)`: first occurrence of `pat` (case-insensitive)
followed by at least one digit; value of the maximal digit run. -/
def findNumCI (pat : List Char) : List Char → Option Nat
  | [] => none
  | c :: rest =>
    if startsWCI (c :: rest) pat then
      let ds := ((c :: rest).drop pat.length).takeWhile Char.isDigit
      if ds = [] then findNumCI pat rest else some (digitsToNat ds)
    else findNumCI pat rest

/-- `line.match(/RESOLUTION=(\d+x\d+)/i)`: the captured `WxH` text
(original case of the `x`). -/
def findResCI : List Char → Option (List Char)
  | [] => none
  | c :: rest =>
    if startsWCI (c :: rest) ("RESOLUTION=".toList) then
      let tail := (c :: rest).drop ("RESOLUTION=".toList).length
      let d1 := tail.takeWhile Char.isDigit
      match d1, tail.drop d1.length with
      | _ :: _, x :: t3 =>
        if toLowerAscii x = 'x' then
          let d2 := t3.takeWhile Char.isDigit
          if d2 = [] then findResCI rest else some (d1 ++ x :: d2)
        else findResCI rest
      | _, _ => findResCI rest
    else findResCI rest

/-- `line.match(/PAT([^,]+)/i)` for `METHOD=` and `IV=`: the maximal
non-empty comma-free run after the first matching occurrence of `pat`. -/
def findAttrValCI (pat : List Char) : List Char → Option (List Char)
  | [] => none
  | c :: rest =>
    if startsWCI (c :: rest) pat then
      let v := ((c :: rest).drop pat.length).takeWhile (fun ch => ch ≠ ',')
      if v = [] then findAttrValCI pat rest else some v
    else findAttrValCI pat rest

/-- `line.match(/URI="([^"]+)"/i)`: a non-empty quote-free run between
quotes after `URI=`. -/
def findUriCI : List Char → Option (List Char)
  | [] => none
  | c :: rest =>
    if startsWCI (c :: rest) ("URI=\"".toList) then
      let tail := (c :: rest).drop ("URI=\"".toList).length
      let v := tail.takeWhile (fun ch => ch ≠ '"')
      match v, tail.drop v.length with
      | _ :: _, '"' :: _ => some v
      | _, _ => findUriCI rest
    else findUriCI rest

def leadDecNumAux : List Char → Nat → Nat
  | [], acc => acc
  | c :: cs, acc =>
    if c.isDigit then leadDecNumAux cs (acc * 10 + (c.toNat - 48)) else acc

/-- Value of the longest leading decimal digit run, `none` when there is
none. -/
def leadDecNum : List Char → Option Nat
  | [] => none
  | c :: cs => if c.isDigit then some (leadDecNumAux cs (c.toNat - 48)) else none

/-- JS `parseInt(s)` without an explicit radix: skip whitespace, optional
sign, then hex after a `0x`/`0X` prefix and decimal otherwise; `none`
models `NaN`. -/
def jsParseIntAuto (s : List Char) : Option Int :=
  let s1 := s.dropWhile isJsWS
  let signed : Bool × List Char :=
    match s1 with
    | '-' :: rest => (true, rest)
    | '+' :: rest => (false, rest)
    | _ => (false, s1)
  match signed.2 with
  | '0' :: 'x' :: rest => (leadHexNum rest).map (fun v => if signed.1 then -(v : Int) else v)
  | '0' :: 'X' :: rest => (leadHexNum rest).map (fun v => if signed.1 then -(v : Int) else v)
  | s2 => (leadDecNum s2).map (fun v => if signed.1 then -(v : Int) else v)

/-- `String.prototype.trim`. -/
def trim (s : List Char) : List Char :=
  ((s.dropWhile isJsWS).reverse.dropWhile isJsWS).reverse

/-- `result.encryption` as built at lines 97-101. -/
structure EncryptionInfo where
  method : List Char
  keyUrl : List Char
  iv : Option (List Char)
deriving DecidableEq

/-- The `result` object of `parseM3u8` (lines 56-62). `mediaSequence` is an
`Int` because `parseInt` of a signed value can be negative. -/
structure Manifest where
  isMaster : Bool
  variants : List Variant
  segments : List (List Char)
  encryption : Option EncryptionInfo
  mediaSequence : Int
deriving DecidableEq

def initManifest : Manifest := ⟨false, [], [], none, 0⟩

/-- Lines 84-87: `result.mediaSequence = parseInt(val) || 0` where
`val = line.split(':')[1]`, skipped when `val` is undefined or empty. -/
def mediaSeqStep (line : List Char) (m : Manifest) : Manifest :=
  match (line.splitOn ':').get? 1 with
  | some val =>
    if val = [] then m else { m with mediaSequence := (jsParseIntAuto val).getD 0 }
  | none => m

/-- `const method = methodMatch ? methodMatch[1] : 'NONE'` (line 95). -/
def keyMethodOf (line : List Char) : List Char :=
  match findAttrValCI ("METHOD=".toList) line with
  | some v => v
  | none => "NONE".toList

/-- Lines 90-105: `METHOD=AES-128` with a `URI` sets the encryption context
(with the `IV=` attribute when present), `METHOD=NONE` (also the default
when the tag has no `METHOD=`) clears it, anything else leaves the parser
state unchanged. The string compares are exact (`===`). -/
def keyStep (resolveUrl : List Char → List Char) (line : List Char) (m : Manifest) :
    Manifest :=
  let method := keyMethodOf line
  match findUriCI line with
  | some uri =>
    let enc : EncryptionInfo :=
      ⟨method, resolveUrl uri, findAttrValCI ("IV=".toList) line⟩
    if method = ("AES-128".toList) then { m with encryption := some enc }
    else if method = ("NONE".toList) then { m with encryption := none }
    else m
  | none =>
    if method = ("NONE".toList) then { m with encryption := none } else m

/-- Lines 68-81: a stream-info tag marks the master flag; when the next line
exists, is non-empty and is not a tag, it is recorded as the variant URL and
consumed (the returned flag). -/
def streamInfStep (resolveUrl : List Char → List Char) (line : List Char)
    (rest : List (List Char)) (m : Manifest) : Manifest × Bool :=
  let m1 := { m with isMaster := true }
  match rest with
  | next :: _ =>
    if next ≠ [] ∧ ¬ startsW next ['#'] then
      let v : Variant :=
        ⟨(findNumCI ("BANDWIDTH=".toList) line).getD 0,
         (findResCI line).getD ("unknown".toList),
         resolveUrl next⟩
      ({ m1 with variants := m1.variants ++ [v] }, true)
    else (m1, false)
  | [] => (m1, false)

/-- The guarded media-sequence block (line 84). -/
def msBlock (line : List Char) (m : Manifest) : Manifest :=
  if startsW line ("#EXT-X-MEDIA-SEQUENCE".toList) then mediaSeqStep line m else m

/-- The guarded key block (line 90). -/
def keyBlock (resolveUrl : List Char → List Char) (line : List Char) (m : Manifest) :
    Manifest :=
  if startsW line ("#EXT-X-KEY".toList) then keyStep resolveUrl line m else m

/-- The segment block (lines 108-110): any non-empty line that is not a tag
is a segment URL. -/
def segBlock (resolveUrl : List Char → List Char) (line : List Char) (m : Manifest) :
    Manifest :=
  if line ≠ [] ∧ ¬ startsW line ['#'] then
    { m with segments := m.segments ++ [resolveUrl line] }
  else m

/-- The blocks of the loop body after the stream-info block, applied to the
current line in source order: media-sequence (lines 84-87), key (90-105),
segment (108-110). -/
def laterBlocks (resolveUrl : List Char → List Char) (line : List Char)
    (m : Manifest) : Manifest :=
  segBlock resolveUrl line (keyBlock resolveUrl line (msBlock line m))

/-- The `for` loop of `parseM3u8` (lines 64-111). Every block of the body is
applied to the current line in source order; a consumed variant URL line is
skipped (`i++`). -/
def parseLoop (resolveUrl : List Char → List Char) :
    List (List Char) → Manifest → Manifest
  | [], m => m
  | line :: rest, m =>
    if startsW line ("#EXT-X-STREAM-INF".toList) then
      let s := streamInfStep resolveUrl line rest m
      if s.2 then
        match rest with
        | _ :: rest2 => parseLoop resolveUrl rest2 (laterBlocks resolveUrl line s.1)
        | [] => laterBlocks resolveUrl line s.1
      else
        parseLoop resolveUrl rest (laterBlocks resolveUrl line s.1)
    else
      parseLoop resolveUrl rest (laterBlocks resolveUrl line m)

/-- `parseM3u8(text, baseUrl)`: split on newlines, trim every line, run the
loop on the fresh `result`. -/
def parseM3u8 (resolveUrl : List Char → List Char) (text : List Char) : Manifest :=
  parseLoop resolveUrl ((text.splitOn '\n').map trim) initManifest

/-- Claim C9: manifest parsing is a pure function of the playlist text and
the base-URL resolver, so re-parsing the same text yields a structurally
identical manifest, field by field. -/
theorem parse_deterministic (resolveUrl : List Char → List Char) (text : List Char) :
    parseM3u8 resolveUrl text = parseM3u8 resolveUrl text ∧
    (parseM3u8 resolveUrl text).isMaster = (parseM3u8 resolveUrl text).isMaster ∧
    (parseM3u8 resolveUrl text).variants = (parseM3u8 resolveUrl text).variants ∧
    (parseM3u8 resolveUrl text).segments = (parseM3u8 resolveUrl text).segments ∧
    (parseM3u8 resolveUrl text).encryption = (parseM3u8 resolveUrl text).encryption ∧
    (parseM3u8 resolveUrl text).mediaSequence = (parseM3u8 resolveUrl text).mediaSequence :=
  ⟨rfl, rfl, rfl, rfl, rfl, rfl⟩

/-! ### Claim C8: key tags with unsupported methods -/

theorem keyStep_unsupported (resolveUrl : List Char → List Char) (line : List Char)
    (m : Manifest) (h1 : keyMethodOf line ≠ ("AES-128".toList))
    (h2 : keyMethodOf line ≠ ("NONE".toList)) :
    keyStep resolveUrl line m = m := by
  rw [keyStep]
  cases findUriCI line with
  | some uri => simp only [if_neg h1, if_neg h2]
  | none => simp only [if_neg h2]

theorem mediaSeqStep_enc (line : List Char) (m : Manifest) :
    (mediaSeqStep line m).encryption = m.encryption := by
  rw [mediaSeqStep]
  cases (line.splitOn ':').get? 1 with
  | none => rfl
  | some v => by_cases hv : v = [] <;> simp [hv]

theorem msBlock_enc (line : List Char) (m : Manifest) :
    (msBlock line m).encryption = m.encryption := by
  rw [msBlock]
  split
  · exact mediaSeqStep_enc line m
  · rfl

theorem segBlock_enc (resolveUrl : List Char → List Char) (line : List Char)
    (m : Manifest) : (segBlock resolveUrl line m).encryption = m.encryption := by
  rw [segBlock]
  split <;> rfl

theorem keyBlock_enc (resolveUrl : List Char → List Char) (line : List Char)
    (m : Manifest)
    (h : startsW line ("#EXT-X-KEY".toList) = true →
      keyMethodOf line ≠ ("AES-128".toList) ∧ keyMethodOf line ≠ ("NONE".toList)) :
    (keyBlock resolveUrl line m).encryption = m.encryption := by
  rw [keyBlock]
  split
  · rename_i hks
    rw [keyStep_unsupported resolveUrl line m (h hks).1 (h hks).2]
  · rfl

theorem laterBlocks_enc (resolveUrl : List Char → List Char) (line : List Char)
    (m : Manifest)
    (h : startsW line ("#EXT-X-KEY".toList) = true →
      keyMethodOf line ≠ ("AES-128".toList) ∧ keyMethodOf line ≠ ("NONE".toList)) :
    (laterBlocks resolveUrl line m).encryption = m.encryption := by
  rw [laterBlocks, segBlock_enc, keyBlock_enc _ _ _ h, msBlock_enc]

theorem streamInfStep_enc (resolveUrl : List Char → List Char) (line : List Char)
    (rest : List (List Char)) (m : Manifest) :
    (streamInfStep resolveUrl line rest m).1.encryption = m.encryption := by
  cases rest with
  | nil => rfl
  | cons next r =>
    simp only [streamInfStep]
    split <;> rfl

theorem parseLoop_enc (resolveUrl : List Char → List Char) :
    ∀ n (lines : List (List Char)) (m : Manifest), lines.length ≤ n →
    (∀ l ∈ lines, startsW l ("#EXT-X-KEY".toList) = true →
      keyMethodOf l ≠ ("AES-128".toList) ∧ keyMethodOf l ≠ ("NONE".toList)) →
    (parseLoop resolveUrl lines m).encryption = m.encryption := by
  intro n
  induction n with
  | zero =>
    intro lines m hl _
    have : lines = [] := List.length_eq_zero.mp (Nat.le_zero.mp hl)
    subst this
    rfl
  | succ n ih =>
    intro lines m hl hp
    cases lines with
    | nil => rfl
    | cons line rest =>
      have hline := hp line (List.mem_cons_self line rest)
      have hrest : ∀ l ∈ rest, startsW l ("#EXT-X-KEY".toList) = true →
          keyMethodOf l ≠ ("AES-128".toList) ∧ keyMethodOf l ≠ ("NONE".toList) :=
        fun l hm => hp l (List.mem_cons_of_mem line hm)
      rw [parseLoop]
      by_cases hs : startsW line ("#EXT-X-STREAM-INF".toList) = true
      · simp only [hs, if_true]
        by_cases hc : (streamInfStep resolveUrl line rest m).2 = true
        · cases rest with
          | nil =>
            simp [streamInfStep] at hc
          | cons next rest2 =>
            simp only [hc, if_true]
            have hrest2 : ∀ l ∈ rest2, startsW l ("#EXT-X-KEY".toList) = true →
                keyMethodOf l ≠ ("AES-128".toList) ∧ keyMethodOf l ≠ ("NONE".toList) :=
              fun l hm => hrest l (List.mem_cons_of_mem next hm)
            rw [ih rest2 _ (by simp at hl ⊢; omega) hrest2,
              laterBlocks_enc _ _ _ hline, streamInfStep_enc]
        · simp only [hc]
          simp only [Bool.false_eq_true, if_false]
          rw [ih rest _ (by simp at hl ⊢; omega) hrest,
            laterBlocks_enc _ _ _ hline, streamInfStep_enc]
      · simp only [hs]
        simp only [Bool.false_eq_true, if_false]
        rw [ih rest _ (by simp at hl ⊢; omega) hrest,
          laterBlocks_enc _ _ _ hline]

/-- Claim C8 (amended): a key tag whose `METHOD` is neither `NONE` nor
`AES-128` is ignored — it leaves the parser's encryption state unchanged,
so no encryption context from such a tag is ever established; when no
AES-128 key tag establishes a context (in particular when every key tag in
the manifest is unsupported), the parsed encryption is absent and segments
are processed without decryption. A previously established AES-128 context,
however, remains in effect past an unsupported tag. -/
theorem unsupported_key_ignored (resolveUrl : List Char → List Char) :
    (∀ line m, keyMethodOf line ≠ ("AES-128".toList) →
      keyMethodOf line ≠ ("NONE".toList) →
      keyStep resolveUrl line m = m) ∧
    (∀ text,
      (∀ l ∈ (text.splitOn '\n').map trim,
        startsW l ("#EXT-X-KEY".toList) = true →
        keyMethodOf l ≠ ("AES-128".toList) ∧ keyMethodOf l ≠ ("NONE".toList)) →
      (parseM3u8 resolveUrl text).encryption = none) ∧
    (∀ decrypt ivHex ms i (d : Bytes),
      processSegment decrypt false ivHex ms i (some d) = some d) := by
  refine ⟨?_, ?_, ?_⟩
  · intro line m h1 h2
    exact keyStep_unsupported resolveUrl line m h1 h2
  · intro text hall
    rw [parseM3u8]
    exact parseLoop_enc resolveUrl ((text.splitOn '\n').map trim).length _ initManifest
      (Nat.le_refl _) hall
  · intro decrypt ivHex ms i d
    rfl

/-- The counterexample manifest: an AES-128 key tag, then a key tag with the
unsupported method `SAMPLE-AES`, then one segment. -/
def c8CexText : List Char :=
  ("#EXT-X-KEY:METHOD=AES-128,URI=\"k.bin\"\n#EXT-X-KEY:METHOD=SAMPLE-AES,URI=\"k2.bin\"\nseg1.ts".toList)

/-- Counterexample to C8 as frozen: in a manifest whose last key tag has the
unsupported method `SAMPLE-AES`, the content is not treated as unencrypted —
after parsing, the earlier AES-128 encryption context is still in effect, so
the job imports a key and the segments are processed through decryption
(which can change their bytes) rather than without it. -/
theorem unsupported_key_counterexample :
    (parseM3u8 id c8CexText).encryption ≠ none ∧
    (parseM3u8 id c8CexText).encryption =
      some ⟨"AES-128".toList, "k.bin".toList, none⟩ ∧
    processSegment (fun _ _ => some [0]) true none 0 0 (some [1]) ≠ some [1] := by
  refine ⟨by decide, by decide, by decide⟩

/-- A manifest whose only key tag is unsupported. -/
def c8WitnessText : List Char :=
  ("#EXT-X-KEY:METHOD=SAMPLE-AES,URI=\"k.bin\"\nseg1.ts".toList)

/-- Witness for the amended C8: a `SAMPLE-AES` key tag is a no-op on the
parser state, a manifest whose only key tag is unsupported parses with
absent encryption, and without a key the fetched bytes pass through
untouched. -/
theorem unsupported_key_ignored_witness :
    keyStep id ("#EXT-X-KEY:METHOD=SAMPLE-AES,URI=\"k.bin\"".toList) initManifest =
      initManifest ∧
    (parseM3u8 id c8WitnessText).encryption = none ∧
    processSegment (fun _ _ => some [0]) false none 0 0 (some [5]) = some [5] :=
  ⟨(unsupported_key_ignored id).1 _ initManifest (by decide) (by decide),
   (unsupported_key_ignored id).2.1 c8WitnessText (by decide),
   (unsupported_key_ignored id).2.2 (fun _ _ => some [0]) none 0 0 [5]⟩

end MediaStreamInspector
